import Mathlib

/-!
Verification development for the watchwolf file watcher (src/main.rs).

Shallow embedding conventions:
* Paths are `String`s (the source converts non-UTF-8 paths to a fixed
  replacement string; the model works with the string form directly).
* `SystemTime` is modelled as `Nat`; `SystemTime::UNIX_EPOCH` is `0`.
* The stat layer (`std::fs::metadata` plus `Metadata::modified`) is modelled
  by `Except ErrorKind Metadata`, with `Metadata.modified : Option Nat`
  (`none` = the platform cannot supply a modification time).  `ErrorKind.Other`
  stands for every error kind other than `NotFound`/`PermissionDenied`.
* Panicking paths (`unreachable!`, `expect`, the explicit `panic!` in
  `format_files_list`) are modelled by `Option`/`none`.
* `HashMap<&Path, FileState>` is modelled as an association list
  `List (String × FileState)`; its iteration order is unspecified in the
  source, the list order stands for one such order.
* The poll loop's re-snapshotting of a path (`FileState::of(f)` on the live
  filesystem) is modelled by a snapshot capability `snap : String → FileState`
  giving the state of the filesystem at the moment of the pass.
-/

namespace Watchwolf

/-- File type classification carried by a stat result. -/
inductive FileType where
  | File
  | Dir
  | Other
deriving DecidableEq

/-- Model of `std::fs::Metadata`: the fields `FileState::of` consumes.
`modified = none` models `Metadata::modified` returning `Err`. -/
structure Metadata where
  ftype : FileType
  modified : Option Nat
deriving DecidableEq

/-- Model of `Metadata::is_file`. -/
def Metadata.is_file (md : Metadata) : Bool := md.ftype == FileType.File

/-- Model of `Metadata::is_dir`. -/
def Metadata.is_dir (md : Metadata) : Bool := md.ftype == FileType.Dir

/-- Model of `std::io::ErrorKind` as observed by `FileState::of`:
`Other` collapses every kind other than the two the code matches on. -/
inductive ErrorKind where
  | NotFound
  | PermissionDenied
  | Other
deriving DecidableEq

/-- `SystemTime::UNIX_EPOCH`. -/
def UNIX_EPOCH : Nat := 0

/-- The `FileState` enum of src/main.rs. -/
inductive FileState where
  | IsFile (t : Nat)
  | IsDir (t : Nat)
  | IsOther (t : Nat)
  | Inexistent (t : Nat)
  | NoPerm (t : Nat)
deriving DecidableEq

/-- `FileState::of`, over the modelled stat result.  The `unreachable!` on
unexpected error kinds and the `expect` on a missing modification time are
modelled by `none`. -/
def FileState.of (stat : Except ErrorKind Metadata) : Option FileState :=
  match stat with
  | Except.error e =>
    match e with
    | ErrorKind.NotFound => some (FileState.Inexistent UNIX_EPOCH)
    | ErrorKind.PermissionDenied => some (FileState.NoPerm UNIX_EPOCH)
    | ErrorKind.Other => none
  | Except.ok md =>
    match md.modified with
    | none => none
    | some tm =>
      if md.is_file then some (FileState.IsFile tm)
      else if md.is_dir then some (FileState.IsDir tm)
      else some (FileState.IsOther tm)

/-- `FileState::has_similar_state`. -/
def FileState.has_similar_state (self other : FileState) : Bool :=
  match self, other with
  | FileState.IsFile _, FileState.IsFile _ => true
  | FileState.IsDir _, FileState.IsDir _ => true
  | FileState.IsOther _, FileState.IsOther _ => true
  | FileState.Inexistent _, FileState.Inexistent _ => true
  | FileState.NoPerm _, FileState.NoPerm _ => true
  | _, _ => false

/-- `FileState::system_time`. -/
def FileState.system_time (self : FileState) : Nat :=
  match self with
  | FileState.IsFile t => t
  | FileState.IsDir t => t
  | FileState.IsOther t => t
  | FileState.Inexistent t => t
  | FileState.NoPerm t => t

/-- `FileState::has_changed`. -/
def FileState.has_changed (self new_state : FileState) : Bool :=
  !self.has_similar_state new_state ||
    decide (self.system_time < new_state.system_time)

/-- The variant tag of a snapshot, using the spec's variant names; used to
state the claims about tag equality independently of the code's
`has_similar_state` helper. -/
inductive Tag where
  | File
  | Directory
  | Other
  | Missing
  | NoPermission
deriving DecidableEq

/-- Tag extraction from a snapshot. -/
def FileState.tag (self : FileState) : Tag :=
  match self with
  | FileState.IsFile _ => Tag.File
  | FileState.IsDir _ => Tag.Directory
  | FileState.IsOther _ => Tag.Other
  | FileState.Inexistent _ => Tag.Missing
  | FileState.NoPerm _ => Tag.NoPermission

/-- C1: `has_changed old new` is true iff the tags differ, or the tags agree
and `new`'s timestamp is strictly greater than `old`'s; in particular with
equal tags and a strictly smaller new timestamp no change is reported. -/
theorem has_changed_characterization :
    (∀ old_s new_s : FileState,
      FileState.has_changed old_s new_s = true ↔
        (old_s.tag ≠ new_s.tag ∨
          (old_s.tag = new_s.tag ∧ old_s.system_time < new_s.system_time))) ∧
    (∀ old_s new_s : FileState, old_s.tag = new_s.tag →
      new_s.system_time < old_s.system_time →
      FileState.has_changed old_s new_s = false) := by
  constructor
  · intro old_s new_s
    cases old_s <;> cases new_s <;>
      simp [FileState.has_changed, FileState.has_similar_state,
        FileState.system_time, FileState.tag]
  · intro old_s new_s htag hlt
    cases old_s <;> cases new_s <;>
      simp_all [FileState.has_changed, FileState.has_similar_state,
        FileState.system_time, FileState.tag] <;> omega

/-- Witness for C1 at a concrete backward-moving-time input. -/
theorem has_changed_characterization_witness :
    FileState.has_changed (FileState.IsFile 5) (FileState.IsFile 3) = false :=
  has_changed_characterization.2 (FileState.IsFile 5) (FileState.IsFile 3)
    rfl (by decide)

/-- C2: `FileState::of` maps a not-found stat failure to `Inexistent(epoch)`,
a permission-denied failure to `NoPerm(epoch)`, and a successful stat with
modification time `t` to `IsFile t` / `IsDir t` / `IsOther t` according to the
file type of the same stat result. -/
theorem of_classification :
    FileState.of (Except.error ErrorKind.NotFound)
        = some (FileState.Inexistent UNIX_EPOCH) ∧
    FileState.of (Except.error ErrorKind.PermissionDenied)
        = some (FileState.NoPerm UNIX_EPOCH) ∧
    (∀ (ft : FileType) (t : Nat),
      FileState.of (Except.ok { ftype := ft, modified := some t })
        = some (match ft with
            | FileType.File => FileState.IsFile t
            | FileType.Dir => FileState.IsDir t
            | FileType.Other => FileState.IsOther t)) := by
  refine ⟨rfl, rfl, ?_⟩
  intro ft t
  cases ft <;> rfl

/-- C3 counterexample: the snapshot operation is not total — on a stat failure
whose kind is neither not-found nor permission-denied the code panics
(`unreachable!`), modelled by `none`, instead of returning a snapshot. -/
theorem of_not_total :
    FileState.of (Except.error ErrorKind.Other) = none ∧
    ¬ (∀ stat : Except ErrorKind Metadata, (FileState.of stat).isSome = true) := by
  refine ⟨rfl, ?_⟩
  intro h
  have := h (Except.error ErrorKind.Other)
  simp [FileState.of] at this

/-- C3 amended: `FileState::of` never returns an error value; its only failure
mode is a panic, which occurs exactly when the stat fails with an unexpected
error kind or succeeds without a modification time.  On every other input it
returns a snapshot. -/
theorem of_total_except_panics (stat : Except ErrorKind Metadata) :
    FileState.of stat = none ↔
      (stat = Except.error ErrorKind.Other ∨
        ∃ ft : FileType, stat = Except.ok { ftype := ft, modified := none }) := by
  cases stat with
  | error e =>
    cases e <;> simp [FileState.of]
  | ok md =>
    obtain ⟨ft, mo⟩ := md
    cases mo with
    | none => simp [FileState.of]
    | some t =>
      cases ft <;> simp [FileState.of, Metadata.is_file, Metadata.is_dir]

/-- `"%F"`, the `FILE_FORMATTED_LIST_PLACEHOLDER` constant. -/
def FILE_FORMATTED_LIST_PLACEHOLDER : String := "%F"

/-- `"%f"`, the `FILE_SEQUENCE_PLACEHOLDER` constant. -/
def FILE_SEQUENCE_PLACEHOLDER : String := "%f"

/-- Model of Rust `str::replace`: replaces every non-overlapping occurrence of
`pat`, scanning left to right.  Fuel-indexed structural recursion; one unit of
fuel is spent per consumed character, so `s.length` fuel always suffices. -/
def replaceFuel (pat rep : List Char) : Nat → List Char → List Char
  | 0, l => l
  | _ + 1, [] => []
  | fuel + 1, c :: cs =>
    if pat.isPrefixOf (c :: cs) then
      rep ++ replaceFuel pat rep fuel (cs.drop (pat.length - 1))
    else
      c :: replaceFuel pat rep fuel cs

/-- Rust `str::replace` on strings. -/
def str_replace (s pat rep : String) : String :=
  String.mk (replaceFuel pat.data rep.data s.data.length s.data)

/-- `format_files_list`: joins the changed paths with `", "`; panics (modelled
by `none`) on an empty list. -/
def format_files_list (changed_files : List String) : Option String :=
  match changed_files with
  | [] => none
  | f :: rest => some (rest.foldl (fun list x => list ++ ", " ++ x) f)

/-- Model of `std::process::Command` as far as `build_cmd` constructs it:
a program name and its argument list. -/
structure Command where
  program : String
  args : List String
deriving DecidableEq

/-- `build_cmd`: computes the `", "`-joined list (panicking on an empty
changed list, hence `Option`) and the space-joined sequence, then either
substitutes both placeholders into every template element — `%F` first, then
`%f`, via two successive `str::replace` passes — or, for an empty template,
returns the fixed default `echo {file_list} changed` command.  The source's
`command.len() > 0` test with `command[0]` and `command[1..]` is translated
as the match on a non-empty list. -/
def build_cmd (changed_files : List String) (command : List String) : Option Command :=
  match format_files_list changed_files with
  | none => none
  | some file_list =>
    let file_sequence := String.intercalate " " changed_files
    match command with
    | c0 :: rest =>
      some
        { program :=
            str_replace (str_replace c0 FILE_FORMATTED_LIST_PLACEHOLDER file_list)
              FILE_SEQUENCE_PLACEHOLDER file_sequence,
          args := rest.map fun x =>
            str_replace (str_replace x FILE_FORMATTED_LIST_PLACEHOLDER file_list)
              FILE_SEQUENCE_PLACEHOLDER file_sequence }
    | [] =>
      some { program := "echo", args := ["{file_list}", "changed"] }

/-- Formalisation of the claim's wording for placeholder expansion: a single
left-to-right pass in which each occurrence of `%F` becomes the `", "`-joined
list and each occurrence of `%f` becomes the space-joined sequence, the two
substitutions being independent of each other.  Stated from the claim's words,
to be compared with `build_cmd`'s two successive replace passes. -/
def simulSubstFuel (file_list file_sequence : List Char) :
    Nat → List Char → List Char
  | 0, l => l
  | _ + 1, [] => []
  | fuel + 1, c :: cs =>
    if ['%', 'F'].isPrefixOf (c :: cs) then
      file_list ++ simulSubstFuel file_list file_sequence fuel (cs.drop 1)
    else if ['%', 'f'].isPrefixOf (c :: cs) then
      file_sequence ++ simulSubstFuel file_list file_sequence fuel (cs.drop 1)
    else
      c :: simulSubstFuel file_list file_sequence fuel cs

/-- Claim-side simultaneous substitution on strings. -/
def simul_subst (s file_list file_sequence : String) : String :=
  String.mk (simulSubstFuel file_list.data file_sequence.data s.data.length s.data)

/-- C6 counterexample: with changed list `["a%fb"]` and template `["%F"]`,
the claim's per-occurrence substitution yields `"a%fb"` (the template has one
`%F` and no `%f`), but `build_cmd` replaces `%F` first and then re-scans the
substituted text for `%f`, producing `"aa%fbb"`. -/
theorem build_cmd_not_simultaneous :
    build_cmd ["a%fb"] ["%F"]
        ≠ some { program := simul_subst "%F" "a%fb" "a%fb", args := [] } ∧
    build_cmd ["a%fb"] ["%F"] = some { program := "aa%fbb", args := [] } ∧
    simul_subst "%F" "a%fb" "a%fb" = "a%fb" := by
  refine ⟨?_, ?_, ?_⟩ <;> decide

/-- C6 amended: for every non-empty template and non-empty changed list,
`build_cmd` rewrites each template element by first replacing every `%F` with
the `", "`-joined changed paths and then, in the resulting string, replacing
every `%f` with the space-joined changed paths (so `%f` text introduced by the
first substitution is rewritten by the second); each substitution yields one
combined argument, and the two scenario templates produce the claimed
argument vectors. -/
theorem build_cmd_substitution (c0 : String) (rest : List String)
    (f0 : String) (frest : List String) :
    (∃ file_list, format_files_list (f0 :: frest) = some file_list ∧
      build_cmd (f0 :: frest) (c0 :: rest) = some
        { program :=
            str_replace (str_replace c0 "%F" file_list) "%f"
              (String.intercalate " " (f0 :: frest)),
          args := rest.map fun x =>
            str_replace (str_replace x "%F" file_list) "%f"
              (String.intercalate " " (f0 :: frest)) }) ∧
    build_cmd ["a.txt", "b.txt"] ["echo", "%F"]
        = some { program := "echo", args := ["a.txt, b.txt"] } ∧
    build_cmd ["a.txt", "b.txt"] ["sh", "-c", "handle %f"]
        = some { program := "sh", args := ["-c", "handle a.txt b.txt"] } := by
  refine ⟨⟨_, rfl, rfl⟩, by decide, by decide⟩

/-- C7 counterexample: `build_cmd` with an empty changed list panics inside
`format_files_list` (modelled by `none`) even when the template is empty, so
it does not produce the default command for every changed list. -/
theorem build_cmd_default_panics_on_empty :
    build_cmd [] [] = none ∧
    build_cmd [] [] ≠ some { program := "echo", args := ["{file_list}", "changed"] } := by
  refine ⟨rfl, ?_⟩ ; decide

/-- C7 amended: for every non-empty changed list, an empty template makes
`build_cmd` return the fixed default command `echo` with the literal
placeholder argument `{file_list}` and the word `changed`, independent of the
changed list's contents and with no placeholder substitution. -/
theorem build_cmd_default (f0 : String) (frest : List String) :
    build_cmd (f0 :: frest) []
        = some { program := "echo", args := ["{file_list}", "changed"] } := rfl

/-- C9: placeholder substitution is applied to the first template element, the
program name, exactly as to the argument positions; concretely a `%f` in the
program position is expanded to the space-joined changed paths. -/
theorem build_cmd_program_substituted (c0 : String) (rest : List String)
    (f0 : String) (frest : List String) :
    (∃ file_list cmd, format_files_list (f0 :: frest) = some file_list ∧
      build_cmd (f0 :: frest) (c0 :: rest) = some cmd ∧
      cmd.program =
        str_replace (str_replace c0 "%F" file_list) "%f"
          (String.intercalate " " (f0 :: frest))) ∧
    build_cmd ["a.txt", "b.txt"] ["run-%f", "x"]
        = some { program := "run-a.txt b.txt", args := ["x"] } := by
  refine ⟨⟨_, _, rfl, rfl, rfl⟩, by decide⟩

/-- The loop body of `process_changed_files`: walks the watch state in
iteration order, re-snapshots each target via `snap`, overwrites the stored
snapshot in place when `has_changed` holds and collects that target into the
changes list.  Returns the updated state together with the raw changes
vector. -/
def detectPass (snap : String → FileState) :
    List (String × FileState) → List (String × FileState) × List String
  | [] => ([], [])
  | (f, fs) :: rest =>
    let curr_fs := snap f
    let r := detectPass snap rest
    if fs.has_changed curr_fs then ((f, curr_fs) :: r.1, f :: r.2)
    else ((f, fs) :: r.1, r.2)

/-- `process_changed_files`: one detection pass, returning the mutated watch
state and `Some changes` when the changes vector is non-empty, `None`
otherwise. -/
def process_changed_files (snap : String → FileState)
    (all_files : List (String × FileState)) :
    List (String × FileState) × Option (List String) :=
  let r := detectPass snap all_files
  if r.2.length > 0 then (r.1, some r.2) else (r.1, none)

theorem detectPass_eq (snap : String → FileState)
    (st : List (String × FileState)) :
    detectPass snap st =
      (st.map fun e => if FileState.has_changed e.2 (snap e.1) then (e.1, snap e.1) else e,
       (st.filter fun e => FileState.has_changed e.2 (snap e.1)).map Prod.fst) := by
  induction st with
  | nil => rfl
  | cons e rest ih =>
    obtain ⟨f, fs⟩ := e
    cases hc : FileState.has_changed fs (snap f) <;>
      simp [detectPass, ih, hc, List.filter_cons]

theorem process_changed_files_eq (snap : String → FileState)
    (st : List (String × FileState)) :
    process_changed_files snap st =
      ((detectPass snap st).1,
       if (detectPass snap st).2.length > 0 then some (detectPass snap st).2
       else none) := by
  unfold process_changed_files
  by_cases h : (detectPass snap st).2.length > 0 <;> simp [h]

/-- C4: in one detection pass over any watch state, every target is compared
against the fresh snapshot taken during that pass, with no early exit: the
resulting state stores, for each target, the new snapshot exactly when
`has_changed` reports a change and the untouched old snapshot otherwise, and
the reported changed list is exactly the changed targets in pass order. -/
theorem process_changed_files_pass (snap : String → FileState)
    (st : List (String × FileState)) :
    process_changed_files snap st =
      (st.map fun e => if FileState.has_changed e.2 (snap e.1) then (e.1, snap e.1) else e,
       if (st.filter fun e => FileState.has_changed e.2 (snap e.1)) = [] then none
       else some ((st.filter fun e => FileState.has_changed e.2 (snap e.1)).map Prod.fst)) := by
  rw [process_changed_files_eq, detectPass_eq]
  rcases hf : st.filter fun e => FileState.has_changed e.2 (snap e.1) with _ | ⟨a, tl⟩ <;>
    simp [hf]

theorem has_changed_self (fs : FileState) :
    FileState.has_changed fs fs = false := by
  cases fs <;>
    simp [FileState.has_changed, FileState.has_similar_state, FileState.system_time]

/-- C5: when the fresh snapshot of every watched target coincides with the
stored one, the detection pass reports `none` and leaves the watch state
unchanged, and a second pass over the resulting state reports `none` again. -/
theorem process_changed_files_stable (snap : String → FileState)
    (st : List (String × FileState)) (h : ∀ e ∈ st, snap e.1 = e.2) :
    process_changed_files snap st = (st, none) ∧
    process_changed_files snap (process_changed_files snap st).1 = (st, none) := by
  have hch : ∀ e ∈ st, FileState.has_changed e.2 (snap e.1) = false := by
    intro e he
    rw [h e he]
    exact has_changed_self e.2
  have hmap :
      (st.map fun e =>
        if FileState.has_changed e.2 (snap e.1) then (e.1, snap e.1) else e) = st := by
    have : ∀ e ∈ st,
        (if FileState.has_changed e.2 (snap e.1) then (e.1, snap e.1) else e) = id e := by
      intro e he
      simp [hch e he]
    rw [List.map_congr_left this, List.map_id]
  have hfil : (st.filter fun e => FileState.has_changed e.2 (snap e.1)) = [] := by
    rw [List.filter_eq_nil_iff]
    intro e he
    simp [hch e he]
  have hmain : process_changed_files snap st = (st, none) := by
    rw [process_changed_files_eq, detectPass_eq, hfil, hmap]
    simp
  exact ⟨hmain, by rw [hmain]; exact hmain⟩

/-- Witness for C5: a stably missing target is never reported changed. -/
theorem process_changed_files_stable_witness :
    process_changed_files (fun _ => FileState.Inexistent 0)
        [("missing.txt", FileState.Inexistent 0)]
      = ([("missing.txt", FileState.Inexistent 0)], none) ∧
    process_changed_files (fun _ => FileState.Inexistent 0)
        (process_changed_files (fun _ => FileState.Inexistent 0)
          [("missing.txt", FileState.Inexistent 0)]).1
      = ([("missing.txt", FileState.Inexistent 0)], none) :=
  process_changed_files_stable (fun _ => FileState.Inexistent 0)
    [("missing.txt", FileState.Inexistent 0)] (by decide)

/-- C8: the detection pass returns `none` exactly when no target changed and
any returned changed list is non-empty, so `format_files_list` — which panics
on an empty list — cannot hit its panic when invoked on a list handed out by
the detection pass. -/
theorem process_changed_files_some_nonempty (snap : String → FileState)
    (st : List (String × FileState)) :
    ((process_changed_files snap st).2 = none ↔
      ∀ e ∈ st, FileState.has_changed e.2 (snap e.1) = false) ∧
    ∀ l, (process_changed_files snap st).2 = some l →
      l ≠ [] ∧ (format_files_list l).isSome = true := by
  rw [process_changed_files_eq, detectPass_eq]
  constructor
  · rcases hf : st.filter fun e => FileState.has_changed e.2 (snap e.1) with _ | ⟨a, tl⟩
    · simp only [hf, List.map_nil, List.length_nil]
      simp [List.filter_eq_nil_iff] at hf
      simpa using hf
    · simp only [hf, List.map_cons, List.length_cons]
      constructor
      · intro hcontra
        simp at hcontra
      · intro hall
        have : a ∈ st.filter fun e => FileState.has_changed e.2 (snap e.1) := by
          rw [hf]; exact List.mem_cons_self a tl
        have hmem := List.mem_filter.mp this
        rw [hall a hmem.1] at hmem
        simp at hmem
  · intro l hl
    rcases hf : st.filter fun e => FileState.has_changed e.2 (snap e.1) with _ | ⟨a, tl⟩
    · rw [hf] at hl
      simp at hl
    · rw [hf] at hl
      simp at hl
      have hne : l ≠ [] := by
        rw [← hl]
        simp
      refine ⟨hne, ?_⟩
      rcases l with _ | ⟨x, xs⟩
      · exact absurd rfl hne
      · rfl

/-- Witness for C8 at a concrete changed target. -/
theorem process_changed_files_some_nonempty_witness :
    (["a.txt"] : List String) ≠ [] ∧ (format_files_list ["a.txt"]).isSome = true :=
  (process_changed_files_some_nonempty (fun _ => FileState.IsFile 1)
    [("a.txt", FileState.IsFile 0)]).2 ["a.txt"] (by decide)

/-- `HashMap::insert` on the association-list model: overwrite the stored
value when the key is already present, append a new binding otherwise. -/
def insertState (st : List (String × FileState)) (f : String) (fs : FileState) :
    List (String × FileState) :=
  if st.any fun e => e.1 == f then
    st.map fun e => if e.1 == f then (f, fs) else e
  else
    st ++ [(f, fs)]

/-- The initial file state cache built by `watch`: one `insert` of the
snapshot of `f` per watched file, a duplicate path overwriting the entry made
for its earlier occurrence. -/
def init_file_state_cache (snap : String → FileState) (files : List String) :
    List (String × FileState) :=
  files.foldl (fun st f => insertState st f (snap f)) []

theorem insertState_keys_nodup (st : List (String × FileState)) (f : String)
    (fs : FileState) (h : (st.map Prod.fst).Nodup) :
    ((insertState st f fs).map Prod.fst).Nodup := by
  unfold insertState
  by_cases hany : (st.any fun e => e.1 == f) = true
  · rw [if_pos hany]
    have hkeys :
        ((st.map fun e => if e.1 == f then (f, fs) else e).map Prod.fst)
          = st.map Prod.fst := by
      rw [List.map_map]
      apply List.map_congr_left
      intro e _
      by_cases hef : (e.1 == f) = true
      · simp only [Function.comp_apply, if_pos hef]
        exact (eq_of_beq hef).symm
      · simp only [Function.comp_apply, if_neg hef]
    rw [hkeys]
    exact h
  · rw [if_neg hany, List.map_append]
    rw [List.nodup_append]
    refine ⟨h, List.nodup_singleton f, ?_⟩
    intro a ha hb
    simp only [List.map_cons, List.map_nil, List.mem_singleton] at hb
    subst hb
    obtain ⟨e, he, hfst⟩ := List.mem_map.mp ha
    apply hany
    rw [List.any_eq_true]
    exact ⟨e, he, by rw [hfst]; exact beq_self_eq_true a⟩

theorem init_file_state_cache_keys_nodup_aux (snap : String → FileState)
    (files : List String) (st : List (String × FileState))
    (h : (st.map Prod.fst).Nodup) :
    ((files.foldl (fun st f => insertState st f (snap f)) st).map Prod.fst).Nodup := by
  induction files generalizing st with
  | nil => simpa using h
  | cons f rest ih => exact ih _ (insertState_keys_nodup st f (snap f) h)

/-- C10: the watch state built at startup is keyed by path — a duplicated
command-line path yields a single entry, so its keys are distinct — and a
detection pass over any watch state with distinct keys reports each watched
path at most once. -/
theorem watch_dedup (snap : String → FileState) (files : List String)
    (st : List (String × FileState)) (l : List String)
    (hnd : (st.map Prod.fst).Nodup)
    (hl : (process_changed_files snap st).2 = some l) :
    ((init_file_state_cache snap files).map Prod.fst).Nodup ∧ l.Nodup := by
  constructor
  · exact init_file_state_cache_keys_nodup_aux snap files [] (by simp)
  · rw [process_changed_files_eq, detectPass_eq] at hl
    have hleq :
        l = (st.filter fun e => FileState.has_changed e.2 (snap e.1)).map Prod.fst := by
      by_cases hlen :
          ((st.filter fun e => FileState.has_changed e.2 (snap e.1)).map Prod.fst).length > 0
      · rw [if_pos hlen] at hl
        exact (Option.some_injective _ hl).symm
      · rw [if_neg hlen] at hl
        exact absurd hl (by simp)
    have hsub :
        ((st.filter fun e => FileState.has_changed e.2 (snap e.1)).map Prod.fst).Sublist
          (st.map Prod.fst) :=
      List.Sublist.map Prod.fst (List.filter_sublist st)
    rw [hleq]
    exact List.Nodup.sublist hsub hnd

/-- Witness for C10 at a duplicated watch path and a concrete changed pass. -/
theorem watch_dedup_witness :
    ((init_file_state_cache (fun _ => FileState.IsFile 1)
        ["a.txt", "a.txt"]).map Prod.fst).Nodup ∧
    (["a.txt"] : List String).Nodup :=
  watch_dedup (fun _ => FileState.IsFile 1) ["a.txt", "a.txt"]
    [("a.txt", FileState.IsFile 0)] ["a.txt"] (by decide) (by decide)

end Watchwolf
